import Mathlib

/-!
Verification development for the tinkoff-invest-tg-bot repository
(src/main.py and src/common.py).

Modelling conventions:
* Python dicts (and defaultdicts) are modelled as association lists
  `List (String × A)` in insertion order.  `addToDict` models
  `d[k] += v` on a `defaultdict(float)` (update in place when the key is
  present, append otherwise); `setToDict` models plain assignment
  `d[k] = v`; `lookupD` models `d[k]` on a defaultdict / `d.get(k, 0.0)`;
  `containsKey` models `k in d`.
* Python floats are modelled as rationals.  For the aggregation claims the
  arithmetic is modelled exactly (a real-arithmetic idealization of float
  addition).  For the numerically sensitive portfolio computation the
  binary64 behaviour is modelled faithfully: `fl` rounds a rational to the
  nearest IEEE-754 binary64 value (round half to even on 53 significant
  bits; the exponent range is irrelevant for the magnitudes involved), and
  `pyRound2` models Python round(x, 2), which rounds the exact decimal
  value of the double half-to-even to 2 decimal places.
* The string enum members of the openapi client are modelled by their
  string values (OperationTypeWithCommission, Currency, InstrumentType).
* External collaborators are parameters: the market name lookup
  `get_name_by_figi` becomes a parameter `nameOf : String → String`, the
  portfolio call becomes a `List Position` argument, the operations call a
  `List Operation` argument, and the whole statistics pipeline of the
  webhook a function from the token to `Except String String`.
* Python exceptions are modelled with `Except String`.
-/

/-! ### Association-list model of Python dicts -/

/-- Model of `d[k] += v` on a `defaultdict(float)`: add to the first entry
with key `k`, appending a fresh entry when the key is absent. -/
def addToDict : List (String × ℚ) → String → ℚ → List (String × ℚ)
  | [], k, v => [(k, v)]
  | (k0, v0) :: rest, k, v =>
    if k0 = k then (k0, v0 + v) :: rest else (k0, v0) :: addToDict rest k v

/-- Model of dict assignment `d[k] = v`: overwrite the first entry with key
`k`, appending a fresh entry when the key is absent. -/
def setToDict {A : Type} : List (String × A) → String → A → List (String × A)
  | [], k, v => [(k, v)]
  | (k0, v0) :: rest, k, v =>
    if k0 = k then (k0, v) :: rest else (k0, v0) :: setToDict rest k v

/-- Model of `d[k]` on a `defaultdict(float)` (also of `d.get(k, 0.0)`):
the value at the first entry with key `k`, and `0` when absent. -/
def lookupD : List (String × ℚ) → String → ℚ
  | [], _ => 0
  | (k0, v0) :: rest, k => if k0 = k then v0 else lookupD rest k

/-- Model of `k in d`. -/
def containsKey {A : Type} (d : List (String × A)) (k : String) : Bool :=
  d.any (fun p => p.1 == k)

/-- Sum of all values of the dict (`sum(d.values())`). -/
def sumValues (d : List (String × ℚ)) : ℚ :=
  (d.map (fun p => p.2)).sum

/-! ### Data model (openapi client records, string-valued enums) -/

/-- MoneyAmount of the openapi client: a currency and a value. -/
structure MoneyAmount where
  currency : String
  value : ℚ
deriving DecidableEq, Repr

/-- Operation record of the openapi client, with the fields the two source
files read.  `commission` is optional (`None` in Python). -/
structure Operation where
  operation_type : String
  currency : String
  payment : ℚ
  figi : String
  instrument_type : String
  commission : Option MoneyAmount
deriving DecidableEq, Repr

/-- Portfolio position record of the openapi client, with the fields the
two source files read. -/
structure Position where
  figi : String
  ticker : String
  balance : ℚ
  average_position_price : MoneyAmount
  expected_yield : MoneyAmount
deriving DecidableEq, Repr

namespace OperationTypeWithCommission

def BUY : String := "Buy"
def SELL : String := "Sell"
def BUYCARD : String := "BuyCard"
def PAYIN : String := "PayIn"
def PAYOUT : String := "PayOut"
def DIVIDEND : String := "Dividend"
def COUPON : String := "Coupon"
def BROKERCOMMISSION : String := "BrokerCommission"
def SERVICECOMMISSION : String := "ServiceCommission"
def TAXDIVIDEND : String := "TaxDividend"
def TAXCOUPON : String := "TaxCoupon"

end OperationTypeWithCommission

namespace Currency

def RUB : String := "RUB"

end Currency

namespace InstrumentType

def CURRENCY : String := "Currency"

end InstrumentType

/-- `DEFAULT_CURRENCY = Currency.RUB` (both source files). -/
def DEFAULT_CURRENCY : String := Currency.RUB

/-! ### The aggregation primitive (identical in both source files) -/

/-- Python `filter(func, xs)`: with `None` it keeps the truthy elements,
and the openapi Operation objects are always truthy, so `filter(None, xs)`
keeps everything. -/
def pyFilter (func : Option (Operation → Bool)) (xs : List Operation) :
    List Operation :=
  match func with
  | none => xs
  | some f => xs.filter f

/-- `InvestCalculator.get_total_payment_by_filter` (src/main.py lines
49-53, src/common.py lines 64-68): accumulate `result[o.currency] +=
o.payment` over the filtered operations into a `defaultdict(float)`. -/
def get_total_payment_by_filter (ops : List Operation)
    (func : Option (Operation → Bool)) : List (String × ℚ) :=
  (pyFilter func ops).foldl (fun result o => addToDict result o.currency o.payment) []

/-- `get_pay_in` (both files): operation type PAYIN. -/
def get_pay_in (ops : List Operation) : List (String × ℚ) :=
  get_total_payment_by_filter ops
    (some fun o => o.operation_type == OperationTypeWithCommission.PAYIN)

/-- `get_pay_out` (both files): operation type PAYOUT. -/
def get_pay_out (ops : List Operation) : List (String × ℚ) :=
  get_total_payment_by_filter ops
    (some fun o => o.operation_type == OperationTypeWithCommission.PAYOUT)

/-- `get_pay_total` (both files): operation type in (PAYOUT, PAYIN). -/
def get_pay_total (ops : List Operation) : List (String × ℚ) :=
  get_total_payment_by_filter ops
    (some fun o => o.operation_type == OperationTypeWithCommission.PAYOUT
      || o.operation_type == OperationTypeWithCommission.PAYIN)

/-- `get_service_commission` (src/common.py lines 73-75): operation type
SERVICECOMMISSION. -/
def get_service_commission (ops : List Operation) : List (String × ℚ) :=
  get_total_payment_by_filter ops
    (some fun o => o.operation_type == OperationTypeWithCommission.SERVICECOMMISSION)

/-! ### Binary64 model for the numerically sensitive portfolio arithmetic -/

/-- Round a rational to the nearest integer, ties to even (the IEEE-754
default and the rule Python round follows). -/
def roundHalfEvenInt (q : ℚ) : ℤ :=
  let f := ⌊q⌋
  let frac := q - f
  if frac < 1 / 2 then f
  else if frac > 1 / 2 then f + 1
  else if f % 2 = 0 then f else f + 1

/-- Round a rational to the nearest IEEE-754 binary64 value (53 significant
bits, round half to even; exponent range ignored, adequate for the
magnitudes of this program).  Models both parsing a Python float literal
and the rounding step of each float arithmetic operation. -/
def fl (q : ℚ) : ℚ :=
  if q = 0 then 0
  else
    let s : ℚ := if q < 0 then -1 else 1
    let a := |q|
    let e : ℤ := Int.log 2 a
    s * (roundHalfEvenInt (a * (2 : ℚ) ^ (52 - e)) : ℚ) * (2 : ℚ) ^ (e - 52)

/-- Binary64 addition: exact sum, rounded back to binary64. -/
def fadd (x y : ℚ) : ℚ := fl (x + y)

/-- Binary64 multiplication: exact product, rounded back to binary64. -/
def fmul (x y : ℚ) : ℚ := fl (x * y)

/-- Python `round(x, 2)` on a float: round the exact decimal value of the
double half-to-even to 2 decimal places (CPython rounds the decimal
expansion of the double correctly; the result is compared at decimal
level). -/
def pyRound2 (q : ℚ) : ℚ := (roundHalfEvenInt (q * 100) : ℚ) / 100

/-! ### src/main.py embeddings -/

namespace MainPy

open OperationTypeWithCommission

/-- `get_total_operations_balance` (src/main.py lines 72-78): default
currency and operation type in (BUY, SELL, 'BuyCard'). -/
def get_total_operations_balance (ops : List Operation) : List (String × ℚ) :=
  get_total_payment_by_filter ops
    (some fun o => o.currency == DEFAULT_CURRENCY
      && (o.operation_type == BUY || o.operation_type == SELL
          || o.operation_type == "BuyCard"))

/-- The filter of the per-instrument loop of `get_profit` (src/main.py
lines 97-105): default currency, type in (BUY, SELL, 'BuyCard'), nonzero
payment. -/
def profitOperationFilter (o : Operation) : Bool :=
  o.currency == DEFAULT_CURRENCY
    && (o.operation_type == BUY || o.operation_type == SELL
        || o.operation_type == "BuyCard")
    && o.payment != 0

/-- The `for` loop of the `figi_total` accumulation of `get_profit`
(src/main.py lines 97-106), carrying the accumulator:
`figi_total[operation.figi] += operation.payment + operation.commission.value`.
Reading `.value` on an absent (`None`) commission raises AttributeError,
modelled with `Except.error`, which aborts the loop as the exception does. -/
def figi_total_go (acc : List (String × ℚ)) :
    List Operation → Except String (List (String × ℚ))
  | [] => Except.ok acc
  | o :: rest =>
    if profitOperationFilter o then
      match o.commission with
      | some cm => figi_total_go (addToDict acc o.figi (o.payment + cm.value)) rest
      | none => Except.error "AttributeError"
    else figi_total_go acc rest

/-- The `figi_total` accumulation of `get_profit` (src/main.py lines
96-106), starting from the empty defaultdict. -/
def figi_total (ops : List Operation) : Except String (List (String × ℚ)) :=
  figi_total_go [] ops

/-- The dividend entry of `get_profit` (src/main.py lines 86-90):
aggregate types (DIVIDEND, TAXDIVIDEND) restricted to the default
currency, then `.get(DEFAULT_CURRENCY, 0.0)`. -/
def dividendEntry (ops : List Operation) : ℚ :=
  lookupD
    (get_total_payment_by_filter ops
      (some fun o => (o.operation_type == DIVIDEND || o.operation_type == TAXDIVIDEND)
        && o.currency == DEFAULT_CURRENCY))
    DEFAULT_CURRENCY

/-- The coupon entry of `get_profit` (src/main.py lines 91-94). -/
def couponEntry (ops : List Operation) : ℚ :=
  lookupD
    (get_total_payment_by_filter ops
      (some fun o => (o.operation_type == COUPON || o.operation_type == TAXCOUPON)
        && o.currency == DEFAULT_CURRENCY))
    DEFAULT_CURRENCY

/-- `get_profit` (src/main.py lines 84-115).  `nameOf` models the external
`get_name_by_figi` market lookup.  The portfolio membership dict
`figi_in_portfolio` is the dict comprehension over the positions; the
per-instrument entries are written only for instruments absent from it. -/
def get_profit (ops : List Operation) (positions : List Position)
    (nameOf : String → String) : Except String (List (String × ℚ)) :=
  (figi_total ops).map fun ft =>
    let figi_in_portfolio : List (String × String) :=
      positions.foldl (fun acc f => setToDict acc f.figi f.ticker) []
    ft.foldl
      (fun profit p =>
        if containsKey figi_in_portfolio p.1 then profit
        else setToDict profit (nameOf p.1) p.2)
      [("dividend", dividendEntry ops), ("coupon", couponEntry ops)]

/-- The Total Profit value of `get_statistics_str` (src/main.py line 124):
`sum(profit.values())`. -/
def totalProfitValue (ops : List Operation) (positions : List Position)
    (nameOf : String → String) : Except String ℚ :=
  (get_profit ops positions nameOf).map sumValues

end MainPy

/-! ### The webhook handler (src/main.py lines 130-137) -/

/-- An incoming chat update, as read by the handler: the request method,
the chat id and the message text (used as the access token). -/
structure TgRequest where
  method : String
  chatId : ℤ
  text : String
deriving DecidableEq, Repr

/-- `webhook` (src/main.py lines 130-137).  `pipeline` models the whole
`InvestCalculator(get_tinkoff_invest_client(token)).get_statistics_str()`
computation: it either produces the statistics text or raises.  The result
is the returned string together with the list of messages sent
(chat id, text); an uncaught Python exception is `Except.error`, in which
case nothing is sent and nothing is returned. -/
def webhook (pipeline : String → Except String String) (request : TgRequest) :
    Except String (String × List (ℤ × String)) :=
  if request.method == "POST" then
    match pipeline request.text with
    | Except.ok stats => Except.ok ("ok", [(request.chatId, stats)])
    | Except.error e => Except.error e
  else Except.ok ("ok", [])

/-! ### src/common.py embeddings -/

/-- First-entry lookup returning an Option (`d[k]` on a plain dict, used
where the source already checked membership). -/
def lookupOpt {A : Type} : List (String × A) → String → Option A
  | [], _ => none
  | (k0, v0) :: rest, k => if k0 = k then some v0 else lookupOpt rest k

/-- Model of `d[k1][k2] += v` on `defaultdict(lambda: defaultdict(float))`. -/
def addToNestedDict : List (String × List (String × ℚ)) → String → String → ℚ →
    List (String × List (String × ℚ))
  | [], k1, k2, v => [(k1, addToDict [] k2 v)]
  | (k0, d0) :: rest, k1, k2, v =>
    if k0 = k1 then (k0, addToDict d0 k2 v) :: rest
    else (k0, d0) :: addToNestedDict rest k1 k2 v

/-- `amount_emoji` (src/common.py lines 17-19): the rounded amount followed
by a success marker when non-negative and a failure marker otherwise.  The
decimal text of the float is abstracted by the ToString of the rational
after Python rounding; no claim depends on that text. -/
def amount_emoji (amount : ℚ) : String :=
  let emoji := if amount >= 0 then "✅" else "❌"
  toString (pyRound2 amount) ++ emoji

/-- A Python value as stored in the dicts handed to the formatters: a
nested dict, a float, or a value of some other type (int, str). -/
inductive PyValue where
  | float : ℚ → PyValue
  | dict : List (String × PyValue) → PyValue
  | int : ℤ → PyValue
  | str : String → PyValue

mutual

/-- `format_dict_with_emoji` (src/common.py lines 26-33): start from the
empty string and walk the entries in order. -/
def format_dict_with_emoji (data : List (String × PyValue)) : String :=
  formatEmojiLoop "" data

/-- The `for name, value in data.items()` loop of `format_dict_with_emoji`,
carrying the `result` accumulator. -/
def formatEmojiLoop (result : String) : List (String × PyValue) → String
  | [] => result
  | (name, value) :: rest => formatEmojiLoop (result ++ formatEmojiEntry name value) rest

/-- The body of the loop of `format_dict_with_emoji`: a nested dict is
rendered recursively, a float is rendered with `amount_emoji` and a
trailing separator, anything else adds nothing. -/
def formatEmojiEntry (name : String) : PyValue → String
  | PyValue.dict d => name ++ ": " ++ format_dict_with_emoji d
  | PyValue.float q => name ++ ": " ++ amount_emoji q ++ "; "
  | PyValue.int _ => ""
  | PyValue.str _ => ""

end

namespace CommonPy

open OperationTypeWithCommission

/-- The filter of the `figi_total` loop of `get_profit` (src/common.py
lines 112-117): type in (BUY, SELL, 'BuyCard') and instrument type not
CURRENCY (no currency restriction, no nonzero-payment restriction). -/
def profitOperationFilter (o : Operation) : Bool :=
  (o.operation_type == BUY || o.operation_type == SELL
      || o.operation_type == "BuyCard")
    && o.instrument_type != InstrumentType.CURRENCY

/-- The `figi_total` accumulation of `get_profit` (src/common.py lines
111-119): `figi_total[figi][currency] += payment +
getattr(commission, 'value', 0)`; an absent commission contributes 0. -/
def figi_total (ops : List Operation) : List (String × List (String × ℚ)) :=
  ops.foldl
    (fun acc o =>
      if profitOperationFilter o then
        addToNestedDict acc o.figi o.currency
          (o.payment + (match o.commission with
            | some c => c.value
            | none => 0))
      else acc)
    []

/-- The dividend entry of `get_profit` (src/common.py lines 102-106): the
whole per-currency aggregate over types (DIVIDEND, TAXDIVIDEND). -/
def dividendEntry (ops : List Operation) : List (String × ℚ) :=
  get_total_payment_by_filter ops
    (some fun o => o.operation_type == DIVIDEND || o.operation_type == TAXDIVIDEND)

/-- The coupon entry of `get_profit` (src/common.py lines 107-109). -/
def couponEntry (ops : List Operation) : List (String × ℚ) :=
  get_total_payment_by_filter ops
    (some fun o => o.operation_type == COUPON || o.operation_type == TAXCOUPON)

/-- `get_profit` (src/common.py lines 100-134).  `figi_in_portfolio` maps
each held figi to (ticker, balance * average price + expected yield,
average price currency); an instrument absent from it gets its accumulated
sum, a held one gets the sum offset by the position value when the
currencies match, and is skipped otherwise. -/
def get_profit (ops : List Operation) (positions : List Position)
    (nameOf : String → String) : List (String × List (String × ℚ)) :=
  let figi_in_portfolio : List (String × (String × ℚ × String)) :=
    positions.foldl
      (fun acc f =>
        setToDict acc f.figi
          (f.ticker,
           f.balance * f.average_position_price.value + f.expected_yield.value,
           f.average_position_price.currency))
      []
  (figi_total ops).foldl
    (fun profit fp =>
      fp.2.foldl
        (fun profit cp =>
          match lookupOpt figi_in_portfolio fp.1 with
          | none => setToDict profit (nameOf fp.1) [(cp.1, cp.2)]
          | some t =>
            if t.2.2 == cp.1 then
              setToDict profit (nameOf fp.1) [(cp.1, cp.2 + t.2.1)]
            else profit)
        profit)
    [("dividend", dividendEntry ops), ("coupon", couponEntry ops)]

/-- The Total Profit mapping of `get_statistics` (src/common.py lines
140-146): flatten the profit mapping per currency, then add the service
commission for each currency already present. -/
def get_statistics_total_profit (ops : List Operation)
    (positions : List Position) (nameOf : String → String) :
    List (String × ℚ) :=
  let service_comission := get_service_commission ops
  let profit := get_profit ops positions nameOf
  let total_profit :=
    profit.foldl (fun acc kv => kv.2.foldl (fun a cv => addToDict a cv.1 cv.2) acc) []
  total_profit.map (fun cv => (cv.1, cv.2 + lookupD service_comission cv.1))

/-- A record of the `get_portfolio_info` listing (src/common.py lines
163-174). -/
structure PortfolioRecord where
  ticker : String
  name : String
  currency : String
  current_total : ℚ
  lots : ℚ
  avg_price : ℚ
deriving DecidableEq, Repr

/-- `get_portfolio_info` (src/common.py lines 163-174).  The float
arithmetic `average_position_price.value * balance + expected_yield.value`
is modelled with binary64 rounding at each step, and `round(x, 2)` with
`pyRound2`. -/
def get_portfolio_info (positions : List Position)
    (nameOf : String → String) : List PortfolioRecord :=
  positions.map fun item =>
    { ticker := item.ticker
      name := nameOf item.figi
      currency := item.average_position_price.currency
      current_total :=
        pyRound2 (fadd (fmul item.average_position_price.value item.balance)
          item.expected_yield.value)
      lots := item.balance
      avg_price := item.average_position_price.value }

end CommonPy

/-! ### Claim-side definitions and concrete inputs -/

/-- The per-instrument accumulation exactly as claim C2 words it: keep
operations of type BUY, SELL or BUYCARD, in the default currency, whose
instrument type is not CURRENCY and whose payment is non-zero, and add
payment plus the commission value (zero when absent) per figi. -/
def figiTotalClaimC2 (ops : List Operation) : List (String × ℚ) :=
  (ops.filter fun o =>
      decide ((o.operation_type = OperationTypeWithCommission.BUY
          ∨ o.operation_type = OperationTypeWithCommission.SELL
          ∨ o.operation_type = OperationTypeWithCommission.BUYCARD)
        ∧ o.currency = DEFAULT_CURRENCY
        ∧ o.instrument_type ≠ InstrumentType.CURRENCY
        ∧ o.payment ≠ 0)).foldl
    (fun acc o =>
      addToDict acc o.figi
        (o.payment + (match o.commission with
          | some cm => cm.value
          | none => 0)))
    []

/-- The amended C2 accumulation: as the claim, but with no instrument-type
condition, matching the filter src/main.py lines 97-105 actually applies. -/
def figiTotalAmendedC2 (ops : List Operation) : List (String × ℚ) :=
  (ops.filter fun o =>
      decide ((o.operation_type = OperationTypeWithCommission.BUY
          ∨ o.operation_type = OperationTypeWithCommission.SELL
          ∨ o.operation_type = OperationTypeWithCommission.BUYCARD)
        ∧ o.currency = DEFAULT_CURRENCY
        ∧ o.payment ≠ 0)).foldl
    (fun acc o =>
      addToDict acc o.figi
        (o.payment + (match o.commission with
          | some cm => cm.value
          | none => 0)))
    []

/-- A Buy operation on a currency-type instrument, in the default currency,
with non-zero payment and a present commission. -/
def currencyInstrumentBuyOp : Operation :=
  { operation_type := "Buy", currency := "RUB", payment := -100,
    figi := "BBG0013HGFT4", instrument_type := "Currency",
    commission := some { currency := "RUB", value := 0 } }

/-- A Buy operation on a stock, default currency, with a commission. -/
def buyOpWithCommission : Operation :=
  { operation_type := "Buy", currency := "RUB", payment := -300,
    figi := "BBG004730N88", instrument_type := "Stock",
    commission := some { currency := "RUB", value := -1 } }

/-- A Buy operation on a stock, default currency, whose commission
sub-record is absent (`None`). -/
def buyOpNoCommission : Operation :=
  { operation_type := "Buy", currency := "RUB", payment := -300,
    figi := "BBG000HLJ7M4", instrument_type := "Stock",
    commission := none }

/-- A service-commission operation in the default currency. -/
def serviceCommissionOp : Operation :=
  { operation_type := "ServiceCommission", currency := "RUB", payment := -10,
    figi := "", instrument_type := "", commission := none }

/-- Sum of all scalar values under all keys of a nested profit mapping
(claim C4: the sum of all values in the profit mapping). -/
def sumAllProfitValues (profit : List (String × List (String × ℚ))) : ℚ :=
  (profit.map fun kv => sumValues kv.2).sum

/-- Sum of the values carried by currency `c` across a nested profit
mapping. -/
def profitCurrencySum (profit : List (String × List (String × ℚ)))
    (c : String) : ℚ :=
  (profit.map fun kv => ((kv.2.filter fun cv => cv.1 == c).map Prod.snd).sum).sum

/-- Whether currency `c` occurs among the values of a nested profit
mapping. -/
def profitHasCurrency (profit : List (String × List (String × ℚ)))
    (c : String) : Bool :=
  profit.any fun kv => kv.2.any fun cv => cv.1 == c

/-- The portfolio position of the literal example of claim C5:
average price 100.0, balance 5, expected yield 12.345 (the rational value
of the binary64 double nearest to 12.345, as produced by parsing the
float). -/
def examplePosition : Position :=
  { figi := "BBG004730N88", ticker := "SBER", balance := 5,
    average_position_price := { currency := "RUB", value := 100 },
    expected_yield := { currency := "RUB", value := fl (12345 / 1000) } }

/-! ### Dictionary lemmas -/

theorem lookupD_addToDict (d : List (String × ℚ)) (k : String) (v : ℚ) (c : String) :
    lookupD (addToDict d k v) c = lookupD d c + if c = k then v else 0 := by
  induction d with
  | nil =>
    rcases eq_or_ne k c with h | h
    · subst h; simp [addToDict, lookupD]
    · simp [addToDict, lookupD, h, h.symm]
  | cons p rest ih =>
    obtain ⟨k0, v0⟩ := p
    rcases eq_or_ne k0 k with h1 | h1
    · subst h1
      rcases eq_or_ne k0 c with h2 | h2
      · subst h2; simp [addToDict, lookupD]
      · simp [addToDict, lookupD, h2, h2.symm]
    · rcases eq_or_ne k0 c with h2 | h2
      · subst h2; simp [addToDict, lookupD, h1]
      · simp [addToDict, lookupD, h1, h2, ih]

theorem sumValues_addToDict (d : List (String × ℚ)) (k : String) (v : ℚ) :
    sumValues (addToDict d k v) = sumValues d + v := by
  induction d with
  | nil => simp [addToDict, sumValues]
  | cons p rest ih =>
    obtain ⟨k0, v0⟩ := p
    rcases eq_or_ne k0 k with h1 | h1
    · subst h1; simp [addToDict, sumValues]; ring
    · simp only [addToDict, if_neg h1]
      simp only [sumValues, List.map_cons, List.sum_cons] at ih ⊢
      rw [ih]; ring

theorem containsKey_addToDict (d : List (String × ℚ)) (k : String) (v : ℚ) (c : String) :
    containsKey (addToDict d k v) c = true ↔ containsKey d c = true ∨ c = k := by
  induction d with
  | nil =>
    simp [addToDict, containsKey, beq_iff_eq]
    exact eq_comm
  | cons p rest ih =>
    obtain ⟨k0, v0⟩ := p
    rcases eq_or_ne k0 k with h1 | h1
    · subst h1
      rcases eq_or_ne k0 c with h2 | h2
      · subst h2; simp [addToDict, containsKey]
      · simp [addToDict, containsKey, beq_iff_eq, h2, h2.symm]
    · simp only [addToDict, if_neg h1, containsKey, List.any_cons] at ih ⊢
      simp only [Bool.or_eq_true, beq_iff_eq] at ih ⊢
      rw [ih]; tauto

theorem lookupD_of_not_containsKey (d : List (String × ℚ)) (c : String)
    (h : ¬ containsKey d c = true) : lookupD d c = 0 := by
  induction d with
  | nil => simp [lookupD]
  | cons p rest ih =>
    obtain ⟨k0, v0⟩ := p
    simp only [containsKey, List.any_cons, Bool.or_eq_true, beq_iff_eq] at h
    push_neg at h
    simp only [lookupD, if_neg h.1]
    exact ih (by simpa [containsKey] using h.2)

theorem containsKey_setToDict {A : Type} (d : List (String × A)) (k : String) (v : A)
    (c : String) :
    containsKey (setToDict d k v) c = true ↔ containsKey d c = true ∨ c = k := by
  induction d with
  | nil =>
    simp [setToDict, containsKey, beq_iff_eq]
    exact eq_comm
  | cons p rest ih =>
    obtain ⟨k0, v0⟩ := p
    rcases eq_or_ne k0 k with h1 | h1
    · subst h1
      rcases eq_or_ne k0 c with h2 | h2
      · subst h2; simp [setToDict, containsKey]
      · simp [setToDict, containsKey, beq_iff_eq, h2, h2.symm]
    · simp only [setToDict, if_neg h1, containsKey, List.any_cons] at ih ⊢
      simp only [Bool.or_eq_true, beq_iff_eq] at ih ⊢
      rw [ih]; tauto

theorem lookupD_setToDict (d : List (String × ℚ)) (k : String) (v : ℚ) (c : String) :
    lookupD (setToDict d k v) c = if c = k then v else lookupD d c := by
  induction d with
  | nil =>
    rcases eq_or_ne k c with h | h
    · subst h; simp [setToDict, lookupD]
    · simp [setToDict, lookupD, h, h.symm]
  | cons p rest ih =>
    obtain ⟨k0, v0⟩ := p
    rcases eq_or_ne k0 k with h1 | h1
    · subst h1
      rcases eq_or_ne k0 c with h2 | h2
      · subst h2; simp [setToDict, lookupD]
      · simp [setToDict, lookupD, h2, h2.symm]
    · rcases eq_or_ne k0 c with h2 | h2
      · subst h2; simp [setToDict, lookupD, h1]
      · simp [setToDict, lookupD, h1, h2, ih]

theorem containsKey_iff_exists {A : Type} (d : List (String × A)) (c : String) :
    containsKey d c = true ↔ ∃ v, (c, v) ∈ d := by
  induction d with
  | nil => simp [containsKey]
  | cons p rest ih =>
    obtain ⟨k0, v0⟩ := p
    simp only [containsKey, List.any_cons, Bool.or_eq_true, beq_iff_eq] at ih ⊢
    constructor
    · rintro (h | h)
      · exact ⟨v0, by simp [h]⟩
      · obtain ⟨v, hv⟩ := ih.mp h
        exact ⟨v, by simp [hv]⟩
    · rintro ⟨v, hv⟩
      rcases List.mem_cons.mp hv with h | h
      · left; exact (congrArg Prod.fst h).symm
      · right; exact ih.mpr ⟨v, h⟩

theorem firstEntry_mem (d : List (String × ℚ)) (c : String)
    (h : containsKey d c = true) : (c, lookupD d c) ∈ d := by
  induction d with
  | nil => simp [containsKey] at h
  | cons p rest ih =>
    obtain ⟨k0, v0⟩ := p
    rcases eq_or_ne k0 c with h2 | h2
    · subst h2; simp [lookupD]
    · simp only [containsKey, List.any_cons, Bool.or_eq_true, beq_iff_eq] at h
      rcases h with h | h
      · exact absurd h h2
      · simp only [lookupD, if_neg h2]
        exact List.mem_cons_of_mem _ (ih (by simpa [containsKey] using h))

/-! ### Aggregation lemmas -/

theorem lookupD_payFold (l : List Operation) :
    ∀ (acc : List (String × ℚ)) (c : String),
      lookupD (l.foldl (fun result o => addToDict result o.currency o.payment) acc) c
        = lookupD acc c + ((l.filter fun o => o.currency == c).map Operation.payment).sum := by
  induction l with
  | nil => intro acc c; simp
  | cons o rest ih =>
    intro acc c
    simp only [List.foldl_cons]
    rw [ih, lookupD_addToDict]
    rcases eq_or_ne o.currency c with h | h
    · simp [List.filter_cons, h]; ring
    · simp [List.filter_cons, h, h.symm]

theorem sumValues_payFold (l : List Operation) :
    ∀ (acc : List (String × ℚ)),
      sumValues (l.foldl (fun result o => addToDict result o.currency o.payment) acc)
        = sumValues acc + (l.map Operation.payment).sum := by
  induction l with
  | nil => intro acc; simp
  | cons o rest ih =>
    intro acc
    simp only [List.foldl_cons, List.map_cons, List.sum_cons]
    rw [ih, sumValues_addToDict]; ring

theorem lookupD_get_total_payment_by_filter (ops : List Operation)
    (f : Operation → Bool) (c : String) :
    lookupD (get_total_payment_by_filter ops (some f)) c
      = (((ops.filter f).filter fun o => o.currency == c).map Operation.payment).sum := by
  rw [get_total_payment_by_filter]
  simp only [pyFilter]
  rw [lookupD_payFold]
  simp [lookupD]

theorem sum_filter_payInOut (l : List Operation) (c : String) :
    ((l.filter fun o => (o.currency == c)
        && (o.operation_type == OperationTypeWithCommission.PAYOUT
            || o.operation_type == OperationTypeWithCommission.PAYIN)).map
      Operation.payment).sum
      = ((l.filter fun o => (o.currency == c)
            && (o.operation_type == OperationTypeWithCommission.PAYIN)).map
          Operation.payment).sum
        + ((l.filter fun o => (o.currency == c)
              && (o.operation_type == OperationTypeWithCommission.PAYOUT)).map
            Operation.payment).sum := by
  induction l with
  | nil => simp
  | cons o rest ih =>
    simp only [OperationTypeWithCommission.PAYIN, OperationTypeWithCommission.PAYOUT] at ih ⊢
    by_cases hi : o.operation_type = "PayIn"
    · have ho : ¬ o.operation_type = "PayOut" := by rw [hi]; decide
      by_cases hc : o.currency = c
      · simp [hi, ho, hc, List.filter_cons, ih]; ring
      · simp [hi, ho, hc, List.filter_cons, ih]
    · by_cases ho : o.operation_type = "PayOut"
      · by_cases hc : o.currency = c
        · simp [hi, ho, hc, List.filter_cons, ih]; ring
        · simp [hi, ho, hc, List.filter_cons, ih]
      · simp [hi, ho, List.filter_cons, ih]

/-- C7: for every operations list and currency, the pay_total aggregate for
that currency equals the pay_in aggregate plus the pay_out aggregate for
that currency (the PAYIN and PAYOUT predicates are disjoint and their
union is the pay_total predicate). -/
theorem pay_total_eq_pay_in_add_pay_out (ops : List Operation) (c : String) :
    lookupD (get_pay_total ops) c
      = lookupD (get_pay_in ops) c + lookupD (get_pay_out ops) c := by
  rw [get_pay_total, get_pay_in, get_pay_out,
    lookupD_get_total_payment_by_filter, lookupD_get_total_payment_by_filter,
    lookupD_get_total_payment_by_filter, List.filter_filter, List.filter_filter,
    List.filter_filter]
  exact sum_filter_payInOut ops c

/-- C8: aggregating with the absent filter (which Python's
`filter(None, ·)` turns into keeping every truthy element, hence every
operation) and summing the per-currency values gives the sum of all
payment fields; the same holds for an explicit always-true predicate. -/
theorem no_filter_aggregate_sums_all_payments (ops : List Operation) :
    sumValues (get_total_payment_by_filter ops none)
        = (ops.map Operation.payment).sum
      ∧ sumValues (get_total_payment_by_filter ops (some fun _ => true))
        = (ops.map Operation.payment).sum := by
  constructor
  · rw [get_total_payment_by_filter]
    simp only [pyFilter]
    rw [sumValues_payFold]
    simp [sumValues]
  · rw [get_total_payment_by_filter]
    simp only [pyFilter, List.filter_true]
    rw [sumValues_payFold]
    simp [sumValues]

/-- C9: the operations-balance aggregate sums the payment of exactly those
operations whose currency is the default currency and whose type is BUY,
SELL or BUYCARD, grouped by currency. -/
theorem operations_balance_sums_default_currency_trades (ops : List Operation)
    (c : String) :
    lookupD (MainPy.get_total_operations_balance ops) c
      = (((ops.filter fun o =>
            decide (o.currency = DEFAULT_CURRENCY
              ∧ (o.operation_type = OperationTypeWithCommission.BUY
                 ∨ o.operation_type = OperationTypeWithCommission.SELL
                 ∨ o.operation_type = OperationTypeWithCommission.BUYCARD))).filter
          fun o => o.currency == c).map Operation.payment).sum := by
  rw [MainPy.get_total_operations_balance, lookupD_get_total_payment_by_filter]
  have hpred : ∀ o : Operation,
      (o.currency == DEFAULT_CURRENCY
        && (o.operation_type == OperationTypeWithCommission.BUY
            || o.operation_type == OperationTypeWithCommission.SELL
            || o.operation_type == "BuyCard"))
        = decide (o.currency = DEFAULT_CURRENCY
            ∧ (o.operation_type = OperationTypeWithCommission.BUY
               ∨ o.operation_type = OperationTypeWithCommission.SELL
               ∨ o.operation_type = OperationTypeWithCommission.BUYCARD)) := by
    intro o
    rw [Bool.eq_iff_iff]
    simp only [Bool.and_eq_true, Bool.or_eq_true, beq_iff_eq, decide_eq_true_eq,
      OperationTypeWithCommission.BUYCARD]
    tauto
  rw [List.filter_congr fun o _ => hpred o]

/-! ### Claim C1: the webhook handler -/

/-- C1 counterexample: on a POST request whose pipeline raises, the
handler propagates the exception; it neither replies with the fixed
message "Token is invalid!" nor returns the acknowledgement "ok" (there is
no try/except in src/main.py lines 130-137). -/
theorem webhook_error_counterexample :
    webhook (fun _ => Except.error "InvalidToken")
        { method := "POST", chatId := 1, text := "some-token" }
        = Except.error "InvalidToken"
      ∧ webhook (fun _ => Except.error "InvalidToken")
          { method := "POST", chatId := 1, text := "some-token" }
        ≠ Except.ok ("ok", [((1 : ℤ), "Token is invalid!")]) := by
  constructor
  · rfl
  · simp [webhook]

/-- C1 amended: the webhook handler has no exception handling.  On a POST
request, an exception raised by the pipeline propagates out of the handler
(so no reply is sent and the acknowledgement string is not returned); the
fixed acknowledgement together with the single statistics reply is
produced exactly when the pipeline succeeds, and a non-POST request is
acknowledged without running the pipeline. -/
theorem webhook_behaviour (pipeline : String → Except String String)
    (request : TgRequest) :
    (request.method = "POST" → ∀ e, pipeline request.text = Except.error e →
        webhook pipeline request = Except.error e)
      ∧ (request.method = "POST" → ∀ stats, pipeline request.text = Except.ok stats →
          webhook pipeline request = Except.ok ("ok", [(request.chatId, stats)]))
      ∧ (¬ request.method = "POST" →
          webhook pipeline request = Except.ok ("ok", [])) := by
  refine ⟨?_, ?_, ?_⟩
  · intro hpost e he; simp [webhook, hpost, he]
  · intro hpost stats hs; simp [webhook, hpost, hs]
  · intro hpost; simp [webhook, hpost]

theorem webhook_behaviour_witness :
    ({ method := "POST", chatId := 1, text := "tok"} : TgRequest).method = "POST"
      ∧ webhook (fun _ => Except.error "Boom")
          { method := "POST", chatId := 1, text := "tok" }
        = Except.error "Boom" :=
  ⟨rfl,
    (webhook_behaviour (fun _ => Except.error "Boom")
      { method := "POST", chatId := 1, text := "tok" }).1 rfl "Boom" rfl⟩

/-! ### Claim C2: the per-instrument profit accumulation filter -/

/-- C2 counterexample: src/main.py applies no instrument-type condition,
so a BUY on a currency-type instrument (excluded by the claim) is
accumulated by the code. -/
theorem figi_total_instrument_type_counterexample :
    MainPy.figi_total [currencyInstrumentBuyOp]
        ≠ Except.ok (figiTotalClaimC2 [currencyInstrumentBuyOp])
      ∧ MainPy.figi_total [currencyInstrumentBuyOp]
        = Except.ok [("BBG0013HGFT4", -100)] := by
  constructor
  · simp [MainPy.figi_total, MainPy.figi_total_go, MainPy.profitOperationFilter,
      currencyInstrumentBuyOp, figiTotalClaimC2, addToDict,
      OperationTypeWithCommission.BUY, DEFAULT_CURRENCY, Currency.RUB,
      InstrumentType.CURRENCY]
  · simp [MainPy.figi_total, MainPy.figi_total_go, MainPy.profitOperationFilter,
      currencyInstrumentBuyOp, addToDict,
      OperationTypeWithCommission.BUY, DEFAULT_CURRENCY, Currency.RUB]

theorem profitOperationFilter_eq_decide (o : Operation) :
    MainPy.profitOperationFilter o
      = decide ((o.operation_type = OperationTypeWithCommission.BUY
          ∨ o.operation_type = OperationTypeWithCommission.SELL
          ∨ o.operation_type = OperationTypeWithCommission.BUYCARD)
        ∧ o.currency = DEFAULT_CURRENCY
        ∧ o.payment ≠ 0) := by
  rw [Bool.eq_iff_iff]
  simp only [MainPy.profitOperationFilter, OperationTypeWithCommission.BUYCARD,
    Bool.and_eq_true, Bool.or_eq_true, beq_iff_eq, bne_iff_ne,
    decide_eq_true_eq, ne_eq]
  tauto

theorem figi_total_go_eq_amended (ops : List Operation) :
    ∀ acc : List (String × ℚ),
      (∀ o ∈ ops, MainPy.profitOperationFilter o = true → o.commission.isSome = true) →
      MainPy.figi_total_go acc ops
        = Except.ok
            ((ops.filter fun o =>
                decide ((o.operation_type = OperationTypeWithCommission.BUY
                    ∨ o.operation_type = OperationTypeWithCommission.SELL
                    ∨ o.operation_type = OperationTypeWithCommission.BUYCARD)
                  ∧ o.currency = DEFAULT_CURRENCY
                  ∧ o.payment ≠ 0)).foldl
              (fun acc o =>
                addToDict acc o.figi
                  (o.payment + (match o.commission with
                    | some cm => cm.value
                    | none => 0)))
              acc) := by
  induction ops with
  | nil => intro acc _; simp [MainPy.figi_total_go]
  | cons o rest ih =>
    intro acc h
    rw [List.filter_cons, ← profitOperationFilter_eq_decide o]
    by_cases hf : MainPy.profitOperationFilter o = true
    · obtain ⟨cm, hcm⟩ := Option.isSome_iff_exists.mp (h o (List.mem_cons_self o rest) hf)
      rw [MainPy.figi_total_go, if_pos hf, hcm]
      dsimp only
      rw [ih _ fun o ho hfo => h o (List.mem_cons_of_mem _ ho) hfo]
      simp [hf, hcm]
    · rw [MainPy.figi_total_go, if_neg hf]
      rw [ih _ fun o ho hfo => h o (List.mem_cons_of_mem _ ho) hfo]
      simp [hf]

/-- C2 amended: the per-instrument accumulation of src/main.py considers
exactly the operations whose type is BUY, SELL or BUYCARD, whose currency
is the default currency and whose payment is non-zero (no instrument-type
condition), and, provided each considered operation carries a commission
sub-record, adds payment plus the commission value to the accumulator
keyed by the operation figi. -/
theorem figi_total_eq_amended (ops : List Operation)
    (h : ∀ o ∈ ops, MainPy.profitOperationFilter o = true → o.commission.isSome = true) :
    MainPy.figi_total ops = Except.ok (figiTotalAmendedC2 ops) :=
  figi_total_go_eq_amended ops [] h

theorem figi_total_eq_amended_witness :
    (∀ o ∈ [buyOpWithCommission],
        MainPy.profitOperationFilter o = true → o.commission.isSome = true)
      ∧ MainPy.figi_total [buyOpWithCommission]
        = Except.ok (figiTotalAmendedC2 [buyOpWithCommission]) :=
  ⟨fun o ho _ => by
      rw [List.mem_singleton.mp ho]; rfl,
    figi_total_eq_amended [buyOpWithCommission] fun o ho _ => by
      rw [List.mem_singleton.mp ho]; rfl⟩

/-! ### Claim C3: absent commission in the profit computation -/

/-- C3: src/main.py reads `operation.commission.value` without a default,
so an operation reached by the profit loop whose commission is absent
raises AttributeError instead of contributing its payment; the common.py
revision of the same loop uses `getattr(operation.commission, 'value', 0)`
and yields the payment with zero commission, which is the documented
intent. -/
theorem missing_commission_raises_in_main_profit :
    MainPy.figi_total [buyOpNoCommission] = Except.error "AttributeError"
      ∧ CommonPy.figi_total [buyOpNoCommission]
        = [("BBG000HLJ7M4", [("RUB", -300)])] := by
  constructor
  · simp [MainPy.figi_total, MainPy.figi_total_go, MainPy.profitOperationFilter,
      buyOpNoCommission, OperationTypeWithCommission.BUY, DEFAULT_CURRENCY,
      Currency.RUB]
  · simp [CommonPy.figi_total, CommonPy.profitOperationFilter, buyOpNoCommission,
      addToNestedDict, addToDict, OperationTypeWithCommission.BUY,
      InstrumentType.CURRENCY]

/-! ### Claim C10: the emoji formatter -/

theorem formatEmojiLoop_append (l : List (String × PyValue)) :
    ∀ acc : String, formatEmojiLoop acc l = acc ++ formatEmojiLoop "" l := by
  induction l with
  | nil => intro acc; simp [formatEmojiLoop]
  | cons p rest ih =>
    intro acc
    obtain ⟨name, value⟩ := p
    rw [formatEmojiLoop, formatEmojiLoop, ih (acc ++ formatEmojiEntry name value),
      ih ("" ++ formatEmojiEntry name value)]
    rw [String.empty_append, String.append_assoc]

/-- C10: the emoji formatter renders an entry only when the value is a
nested mapping or a float; an entry of any other type (integer, string)
adds nothing to the output; a float entry is rendered with the emoji
marker and terminated by the separator, and a dict entry is rendered
recursively. -/
theorem format_dict_with_emoji_entries (k : String) (v : PyValue)
    (rest : List (String × PyValue)) :
    format_dict_with_emoji ((k, v) :: rest)
      = (match v with
          | PyValue.dict d => k ++ ": " ++ format_dict_with_emoji d
          | PyValue.float q => k ++ ": " ++ amount_emoji q ++ "; "
          | PyValue.int _ => ""
          | PyValue.str _ => "") ++ format_dict_with_emoji rest := by
  rw [format_dict_with_emoji, formatEmojiLoop, formatEmojiLoop_append]
  cases v <;> simp [formatEmojiEntry, format_dict_with_emoji, String.append_assoc]

/-! ### Claim C4: the Total Profit aggregation of src/common.py -/

theorem lookupD_pairFold (l : List (String × ℚ)) :
    ∀ (acc : List (String × ℚ)) (c : String),
      lookupD (l.foldl (fun a cv => addToDict a cv.1 cv.2) acc) c
        = lookupD acc c + ((l.filter fun cv => cv.1 == c).map Prod.snd).sum := by
  induction l with
  | nil => intro acc c; simp
  | cons cv rest ih =>
    intro acc c
    simp only [List.foldl_cons]
    rw [ih, lookupD_addToDict]
    rcases eq_or_ne cv.1 c with h | h
    · simp [List.filter_cons, h]; ring
    · simp [List.filter_cons, h, h.symm]

theorem containsKey_pairFold (l : List (String × ℚ)) :
    ∀ (acc : List (String × ℚ)) (c : String),
      containsKey (l.foldl (fun a cv => addToDict a cv.1 cv.2) acc) c = true
        ↔ containsKey acc c = true ∨ (l.any fun cv => cv.1 == c) = true := by
  induction l with
  | nil => intro acc c; simp
  | cons cv rest ih =>
    intro acc c
    rw [List.foldl_cons, ih, containsKey_addToDict]
    simp only [List.any_cons, Bool.or_eq_true, beq_iff_eq]
    constructor
    · rintro ((h | h) | h)
      · exact Or.inl h
      · exact Or.inr (Or.inl h.symm)
      · exact Or.inr (Or.inr h)
    · rintro (h | h | h)
      · exact Or.inl (Or.inl h)
      · exact Or.inl (Or.inr h.symm)
      · exact Or.inr h

theorem lookupD_nestedFold (profit : List (String × List (String × ℚ))) :
    ∀ (acc : List (String × ℚ)) (c : String),
      lookupD (profit.foldl (fun acc kv => kv.2.foldl (fun a cv => addToDict a cv.1 cv.2) acc) acc) c
        = lookupD acc c + profitCurrencySum profit c := by
  induction profit with
  | nil => intro acc c; simp [profitCurrencySum]
  | cons kv rest ih =>
    intro acc c
    simp only [List.foldl_cons]
    rw [ih, lookupD_pairFold]
    simp only [profitCurrencySum, List.map_cons, List.sum_cons]
    ring

theorem containsKey_nestedFold (profit : List (String × List (String × ℚ))) :
    ∀ (acc : List (String × ℚ)) (c : String),
      containsKey (profit.foldl (fun acc kv => kv.2.foldl (fun a cv => addToDict a cv.1 cv.2) acc) acc) c = true
        ↔ containsKey acc c = true ∨ profitHasCurrency profit c = true := by
  induction profit with
  | nil => intro acc c; simp [profitHasCurrency]
  | cons kv rest ih =>
    intro acc c
    simp only [List.foldl_cons]
    rw [ih, containsKey_pairFold]
    simp only [profitHasCurrency, List.any_cons, Bool.or_eq_true]
    tauto

theorem lookupD_map_addValue (l : List (String × ℚ)) (f : String → ℚ) (c : String) :
    lookupD (l.map fun cv => (cv.1, cv.2 + f cv.1)) c
      = if containsKey l c = true then lookupD l c + f c else 0 := by
  induction l with
  | nil => simp [lookupD, containsKey]
  | cons cv rest ih =>
    obtain ⟨k0, v0⟩ := cv
    rcases eq_or_ne k0 c with h | h
    · subst h; simp [lookupD, containsKey, List.map_cons]
    · simp only [List.map_cons, lookupD, if_neg h, containsKey, List.any_cons,
        Bool.or_eq_true, beq_iff_eq] at ih ⊢
      rw [ih]
      rcases eq_or_ne (containsKey rest c) true with hk | hk
      · simp only [containsKey, List.any_eq_true, beq_iff_eq] at hk
        simp [h, hk]
      · simp only [containsKey, List.any_eq_true, beq_iff_eq] at hk
        simp [h, hk]

/-- C4 counterexample: with a single default-currency service-commission
operation and an empty portfolio, the reported Total Profit for the
default currency is absent (0), while the claim predicts the profit-map
sum plus the service commission, which is -10. -/
theorem total_profit_counterexample :
    lookupD (CommonPy.get_statistics_total_profit [serviceCommissionOp] [] (fun s => s))
        DEFAULT_CURRENCY
      ≠ sumAllProfitValues (CommonPy.get_profit [serviceCommissionOp] [] (fun s => s))
        + lookupD (get_service_commission [serviceCommissionOp]) DEFAULT_CURRENCY := by
  simp [CommonPy.get_statistics_total_profit, CommonPy.get_profit,
    CommonPy.figi_total, CommonPy.dividendEntry, CommonPy.couponEntry,
    CommonPy.profitOperationFilter, get_service_commission,
    get_total_payment_by_filter, pyFilter, serviceCommissionOp,
    sumAllProfitValues, sumValues, lookupD, addToDict,
    OperationTypeWithCommission.BUY, OperationTypeWithCommission.SELL,
    OperationTypeWithCommission.DIVIDEND, OperationTypeWithCommission.TAXDIVIDEND,
    OperationTypeWithCommission.COUPON, OperationTypeWithCommission.TAXCOUPON,
    OperationTypeWithCommission.SERVICECOMMISSION, InstrumentType.CURRENCY,
    DEFAULT_CURRENCY, Currency.RUB]

/-- C4 amended: the Total Profit mapping of src/common.py is per currency:
for each currency occurring among the profit-map values, its Total Profit
entry is the sum of all profit values in that currency plus that currency
service commission; a currency with no profit entries gets no Total Profit
entry (its service commission is not reported), and looking up such a
currency yields 0. -/
theorem total_profit_eq_currency_sum_plus_service_commission
    (ops : List Operation) (positions : List Position)
    (nameOf : String → String) (c : String) :
    lookupD (CommonPy.get_statistics_total_profit ops positions nameOf) c
      = profitCurrencySum (CommonPy.get_profit ops positions nameOf) c
        + (if profitHasCurrency (CommonPy.get_profit ops positions nameOf) c = true
           then lookupD (get_service_commission ops) c
           else 0) := by
  simp only [CommonPy.get_statistics_total_profit]
  rw [lookupD_map_addValue]
  by_cases h : profitHasCurrency (CommonPy.get_profit ops positions nameOf) c = true
  · rw [if_pos ((containsKey_nestedFold (CommonPy.get_profit ops positions nameOf)
        [] c).mpr (Or.inr h)), if_pos h, lookupD_nestedFold]
    simp [lookupD]
  · have hck : ¬ containsKey
        ((CommonPy.get_profit ops positions nameOf).foldl
          (fun acc kv => kv.2.foldl (fun a cv => addToDict a cv.1 cv.2) acc) []) c = true := by
      intro hc
      rcases (containsKey_nestedFold (CommonPy.get_profit ops positions nameOf)
          [] c).mp hc with h0 | h0
      · simp [containsKey] at h0
      · exact h h0
    have h0 := lookupD_of_not_containsKey _ c hck
    rw [lookupD_nestedFold] at h0
    simp only [lookupD] at h0
    have hpcs : profitCurrencySum (CommonPy.get_profit ops positions nameOf) c = 0 := by
      linarith
    rw [if_neg hck, if_neg h, hpcs]
    ring

/-! ### Claim C6: the structure of the src/main.py profit mapping -/

theorem containsKey_iff_mem_keys {A : Type} (d : List (String × A)) (c : String) :
    containsKey d c = true ↔ c ∈ d.map Prod.fst := by
  simp only [containsKey, List.any_eq_true, beq_iff_eq, List.mem_map]

theorem mem_keys_addToDict (d : List (String × ℚ)) (k : String) (v : ℚ) (a : String) :
    a ∈ (addToDict d k v).map Prod.fst ↔ a ∈ d.map Prod.fst ∨ a = k := by
  rw [← containsKey_iff_mem_keys, ← containsKey_iff_mem_keys, containsKey_addToDict]

theorem nodupKeys_addToDict (d : List (String × ℚ)) (k : String) (v : ℚ)
    (h : (d.map Prod.fst).Nodup) : ((addToDict d k v).map Prod.fst).Nodup := by
  induction d with
  | nil => simp [addToDict]
  | cons p rest ih =>
    obtain ⟨k0, v0⟩ := p
    rcases eq_or_ne k0 k with h1 | h1
    · subst h1
      simpa [addToDict] using h
    · simp only [addToDict, if_neg h1, List.map_cons, List.nodup_cons] at h ⊢
      exact ⟨fun hmem => by
          rcases (mem_keys_addToDict rest k v k0).mp hmem with h0 | h0
          · exact h.1 h0
          · exact h1 h0,
        ih h.2⟩

theorem nodupKeys_figi_total_go (ops : List Operation) :
    ∀ (acc : List (String × ℚ)) (ft : List (String × ℚ)),
      (acc.map Prod.fst).Nodup →
      MainPy.figi_total_go acc ops = Except.ok ft →
      (ft.map Prod.fst).Nodup := by
  induction ops with
  | nil =>
    intro acc ft hacc h
    rw [MainPy.figi_total_go] at h
    cases h
    exact hacc
  | cons o rest ih =>
    intro acc ft hacc h
    rw [MainPy.figi_total_go] at h
    by_cases hf : MainPy.profitOperationFilter o = true
    · rw [if_pos hf] at h
      cases hcm : o.commission with
      | none => rw [hcm] at h; cases h
      | some cm =>
        rw [hcm] at h
        exact ih _ _ (nodupKeys_addToDict acc o.figi (o.payment + cm.value) hacc) h
    · rw [if_neg hf] at h
      exact ih _ _ hacc h

theorem nodupKeys_figi_total (ops : List Operation) (ft : List (String × ℚ))
    (h : MainPy.figi_total ops = Except.ok ft) : (ft.map Prod.fst).Nodup :=
  nodupKeys_figi_total_go ops [] ft (by simp) h

theorem lookupD_eq_of_mem_nodup (ft : List (String × ℚ)) (f : String) (v : ℚ)
    (hnodup : (ft.map Prod.fst).Nodup) (hmem : (f, v) ∈ ft) :
    lookupD ft f = v := by
  induction ft with
  | nil => cases hmem
  | cons p rest ih =>
    obtain ⟨k0, v0⟩ := p
    simp only [List.map_cons, List.nodup_cons] at hnodup
    rcases List.mem_cons.mp hmem with h | h
    · obtain ⟨h1, h2⟩ := Prod.mk.injEq f v k0 v0 ▸ h
      subst h1
      rw [lookupD, if_pos rfl]
      exact h2.symm
    · have hk : ¬ k0 = f := by
        intro he
        exact hnodup.1 (he ▸ (List.mem_map.mpr ⟨(f, v), h, rfl⟩))
      rw [lookupD, if_neg hk]
      exact ih hnodup.2 h

theorem profitFold_containsKey (pf : List (String × String)) (nameOf : String → String)
    (ft : List (String × ℚ)) :
    ∀ (acc : List (String × ℚ)) (c : String),
      containsKey (ft.foldl (fun profit p =>
          if containsKey pf p.1 then profit
          else setToDict profit (nameOf p.1) p.2) acc) c = true
        ↔ containsKey acc c = true
          ∨ ∃ p ∈ ft, containsKey pf p.1 = false ∧ c = nameOf p.1 := by
  induction ft with
  | nil => intro acc c; simp
  | cons p rest ih =>
    intro acc c
    rw [List.foldl_cons]
    by_cases hpf : containsKey pf p.1 = true
    · rw [if_pos hpf, ih]
      constructor
      · rintro (h | ⟨q, hq, h1, h2⟩)
        · exact Or.inl h
        · exact Or.inr ⟨q, List.mem_cons_of_mem _ hq, h1, h2⟩
      · rintro (h | ⟨q, hq, h1, h2⟩)
        · exact Or.inl h
        · rcases List.mem_cons.mp hq with rfl | hq2
          · rw [hpf] at h1; cases h1
          · exact Or.inr ⟨q, hq2, h1, h2⟩
    · have hpf2 : containsKey pf p.1 = false := by
        revert hpf; cases containsKey pf p.1 <;> simp
      rw [if_neg hpf, ih, containsKey_setToDict]
      constructor
      · rintro ((h | h) | ⟨q, hq, h1, h2⟩)
        · exact Or.inl h
        · exact Or.inr ⟨p, List.mem_cons_self p rest, hpf2, h⟩
        · exact Or.inr ⟨q, List.mem_cons_of_mem _ hq, h1, h2⟩
      · rintro (h | ⟨q, hq, h1, h2⟩)
        · exact Or.inl (Or.inl h)
        · rcases List.mem_cons.mp hq with rfl | hq2
          · exact Or.inl (Or.inr h2)
          · exact Or.inr ⟨q, hq2, h1, h2⟩

theorem profitFold_lookupD_untouched (pf : List (String × String))
    (nameOf : String → String) (ft : List (String × ℚ)) (c : String) :
    ∀ acc : List (String × ℚ),
      (∀ p ∈ ft, containsKey pf p.1 = false → ¬ nameOf p.1 = c) →
      lookupD (ft.foldl (fun profit p =>
          if containsKey pf p.1 then profit
          else setToDict profit (nameOf p.1) p.2) acc) c = lookupD acc c := by
  induction ft with
  | nil => intro acc _; simp
  | cons p rest ih =>
    intro acc h
    rw [List.foldl_cons]
    by_cases hpf : containsKey pf p.1 = true
    · rw [if_pos hpf]
      exact ih acc fun q hq => h q (List.mem_cons_of_mem _ hq)
    · have hpf2 : containsKey pf p.1 = false := by
        revert hpf; cases containsKey pf p.1 <;> simp
      rw [if_neg hpf]
      rw [ih _ fun q hq => h q (List.mem_cons_of_mem _ hq)]
      rw [lookupD_setToDict,
        if_neg fun hc => h p (List.mem_cons_self p rest) hpf2 hc.symm]

theorem profitFold_lookupD_hit (pf : List (String × String))
    (nameOf : String → String) (f0 : String) (v0 : ℚ) :
    ∀ (ft : List (String × ℚ)) (acc : List (String × ℚ)),
      (ft.map Prod.fst).Nodup →
      (∀ a b, a ∈ ft.map Prod.fst → b ∈ ft.map Prod.fst → nameOf a = nameOf b → a = b) →
      (f0, v0) ∈ ft → containsKey pf f0 = false →
      lookupD (ft.foldl (fun profit p =>
          if containsKey pf p.1 then profit
          else setToDict profit (nameOf p.1) p.2) acc) (nameOf f0) = v0 := by
  intro ft
  induction ft with
  | nil => intro acc _ _ hmem _; cases hmem
  | cons p rest ih =>
    intro acc hnodup hinj hmem hpf0
    obtain ⟨pk, pv⟩ := p
    simp only [List.map_cons, List.nodup_cons] at hnodup
    rw [List.foldl_cons]
    rcases List.mem_cons.mp hmem with h | h
    · obtain ⟨h1, h2⟩ := Prod.mk.injEq f0 v0 pk pv ▸ h
      subst h1
      subst h2
      rw [if_neg (by rw [hpf0]; simp)]
      rw [profitFold_lookupD_untouched pf nameOf rest (nameOf f0) _ ?huntouched]
      · rw [lookupD_setToDict, if_pos rfl]
      case huntouched =>
        intro q hq hqpf hqname
        have hqmem : q.1 ∈ ((f0, v0) :: rest).map Prod.fst :=
          List.mem_map.mpr ⟨q, List.mem_cons_of_mem _ hq, rfl⟩
        have : q.1 = f0 :=
          hinj q.1 f0 hqmem (by simp) hqname
        exact hnodup.1 (this ▸ List.mem_map.mpr ⟨q, hq, rfl⟩)
    · have hinj2 : ∀ a b, a ∈ rest.map Prod.fst → b ∈ rest.map Prod.fst →
          nameOf a = nameOf b → a = b := fun a b ha hb =>
        hinj a b (List.mem_map.mpr (by
            obtain ⟨q, hq, hql⟩ := List.mem_map.mp ha
            exact ⟨q, List.mem_cons_of_mem _ hq, hql⟩))
          (List.mem_map.mpr (by
            obtain ⟨q, hq, hql⟩ := List.mem_map.mp hb
            exact ⟨q, List.mem_cons_of_mem _ hq, hql⟩))
      exact ih _ hnodup.2 hinj2 h hpf0

theorem containsKey_positions_fold (positions : List Position) :
    ∀ (acc : List (String × String)) (k : String),
      containsKey (positions.foldl (fun acc f => setToDict acc f.figi f.ticker) acc) k = true
        ↔ containsKey acc k = true ∨ k ∈ positions.map Position.figi := by
  induction positions with
  | nil => intro acc k; simp
  | cons f rest ih =>
    intro acc k
    rw [List.foldl_cons, ih, containsKey_setToDict]
    simp only [List.map_cons, List.mem_cons]
    tauto

theorem gtpbf_eq_nil_of_no_match (ops : List Operation) (f : Operation → Bool)
    (h : ∀ o ∈ ops, ¬ f o = true) :
    get_total_payment_by_filter ops (some f) = [] := by
  rw [get_total_payment_by_filter]
  simp only [pyFilter]
  rw [List.filter_eq_nil_iff.mpr h]
  rfl

theorem bool_eq_false_of_not_true {b : Bool} (h : ¬ b = true) : b = false := by
  cases b
  · rfl
  · exact absurd rfl h

/-- C6: for every operations list and portfolio for which the src/main.py
profit computation succeeds (and for labels that are injective and avoid
the two reserved keys, as the ticker-name-figi labels are), the profit
mapping contains the keys dividend and coupon, each 0 when no operation of
the corresponding types exists, and contains the entry labelled for an
instrument with accumulated BUY/SELL/BUYCARD cash flow exactly when that
instrument does not appear in the current portfolio, in which case the
value is the accumulated cash flow. -/
theorem get_profit_structure (ops : List Operation) (positions : List Position)
    (nameOf : String → String) (ft m : List (String × ℚ))
    (hft : MainPy.figi_total ops = Except.ok ft)
    (hm : MainPy.get_profit ops positions nameOf = Except.ok m)
    (hres : ∀ f ∈ ft.map Prod.fst, ¬ nameOf f = "dividend" ∧ ¬ nameOf f = "coupon")
    (hinj : ∀ a b, a ∈ ft.map Prod.fst → b ∈ ft.map Prod.fst →
      nameOf a = nameOf b → a = b) :
    containsKey m "dividend" = true
      ∧ containsKey m "coupon" = true
      ∧ ((∀ o ∈ ops, ¬ (o.operation_type = OperationTypeWithCommission.DIVIDEND
            ∨ o.operation_type = OperationTypeWithCommission.TAXDIVIDEND)) →
          lookupD m "dividend" = 0)
      ∧ ((∀ o ∈ ops, ¬ (o.operation_type = OperationTypeWithCommission.COUPON
            ∨ o.operation_type = OperationTypeWithCommission.TAXCOUPON)) →
          lookupD m "coupon" = 0)
      ∧ (∀ f ∈ ft.map Prod.fst,
          (containsKey m (nameOf f) = true ↔ ¬ f ∈ positions.map Position.figi)
            ∧ (¬ f ∈ positions.map Position.figi →
                lookupD m (nameOf f) = lookupD ft f)) := by
  simp only [MainPy.get_profit] at hm
  rw [hft] at hm
  simp only [Except.map, Except.ok.injEq] at hm
  subst hm
  set pf := positions.foldl (fun acc f => setToDict acc f.figi f.ticker)
    ([] : List (String × String)) with hpfdef
  set base := [("dividend", MainPy.dividendEntry ops),
    ("coupon", MainPy.couponEntry ops)] with hbasedef
  have hnodup : (ft.map Prod.fst).Nodup := nodupKeys_figi_total ops ft hft
  have hpf_mem : ∀ f, containsKey pf f = true ↔ f ∈ positions.map Position.figi := by
    intro f
    rw [hpfdef, containsKey_positions_fold]
    simp [containsKey]
  have hbase_div : containsKey base "dividend" = true := by
    rw [hbasedef]; simp [containsKey]
  have hbase_coup : containsKey base "coupon" = true := by
    rw [hbasedef]; simp [containsKey]
  refine ⟨?_, ?_, ?_, ?_, ?_⟩
  · exact (profitFold_containsKey pf nameOf ft base "dividend").mpr (Or.inl hbase_div)
  · exact (profitFold_containsKey pf nameOf ft base "coupon").mpr (Or.inl hbase_coup)
  · intro hno
    rw [profitFold_lookupD_untouched pf nameOf ft "dividend" base
      (fun p hp _ => (hres p.1 (List.mem_map.mpr ⟨p, hp, rfl⟩)).1)]
    rw [hbasedef]
    simp only [lookupD, if_pos rfl]
    rw [MainPy.dividendEntry, gtpbf_eq_nil_of_no_match]
    · rfl
    · intro o ho
      simp only [Bool.and_eq_true, Bool.or_eq_true, beq_iff_eq]
      rintro ⟨h1 | h1, _⟩
      · exact hno o ho (Or.inl h1)
      · exact hno o ho (Or.inr h1)
  · intro hno
    rw [profitFold_lookupD_untouched pf nameOf ft "coupon" base
      (fun p hp _ => (hres p.1 (List.mem_map.mpr ⟨p, hp, rfl⟩)).2)]
    rw [hbasedef]
    have hdc : ¬ ("dividend" : String) = "coupon" := by decide
    simp only [lookupD, if_neg hdc, if_pos rfl]
    rw [MainPy.couponEntry, gtpbf_eq_nil_of_no_match]
    · rfl
    · intro o ho
      simp only [Bool.and_eq_true, Bool.or_eq_true, beq_iff_eq]
      rintro ⟨h1 | h1, _⟩
      · exact hno o ho (Or.inl h1)
      · exact hno o ho (Or.inr h1)
  · intro f hf
    have hbase_f : ¬ containsKey base (nameOf f) = true := by
      rw [hbasedef]
      simp only [containsKey, List.any_cons, List.any_nil, Bool.or_eq_true,
        beq_iff_eq, Bool.or_false]
      rintro (h | h)
      · exact (hres f hf).1 h.symm
      · exact (hres f hf).2 h.symm
    constructor
    · rw [profitFold_containsKey pf nameOf ft base (nameOf f)]
      constructor
      · rintro (hb | ⟨q, hq, h1, h2⟩)
        · exact absurd hb hbase_f
        · intro hmem
          have hqf : q.1 = f :=
            hinj q.1 f (List.mem_map.mpr ⟨q, hq, rfl⟩) hf h2.symm
          rw [hqf] at h1
          rw [(hpf_mem f).mpr hmem] at h1
          cases h1
      · intro hnmem
        obtain ⟨p, hp, hp1⟩ := List.mem_map.mp hf
        refine Or.inr ⟨p, hp, ?_, ?_⟩
        · rw [hp1]
          exact bool_eq_false_of_not_true fun h => hnmem ((hpf_mem f).mp h)
        · rw [hp1]
    · intro hnmem
      have hpff : containsKey pf f = false :=
        bool_eq_false_of_not_true fun h => hnmem ((hpf_mem f).mp h)
      obtain ⟨p, hp, hp1⟩ := List.mem_map.mp hf
      have hv : (f, p.2) ∈ ft := by
        rw [← hp1]
        exact hp
      rw [profitFold_lookupD_hit pf nameOf f p.2 ft base hnodup hinj hv hpff,
        lookupD_eq_of_mem_nodup ft f p.2 hnodup hv]

theorem get_profit_structure_witness :
    MainPy.figi_total [buyOpWithCommission] = Except.ok [("BBG004730N88", -301)]
      ∧ containsKey [("dividend", (0 : ℚ)), ("coupon", 0), ("IBBG004730N88", -301)]
          "dividend" = true := by
  have hft : MainPy.figi_total [buyOpWithCommission]
      = Except.ok [("BBG004730N88", -301)] := by
    norm_num [MainPy.figi_total, MainPy.figi_total_go, MainPy.profitOperationFilter,
      buyOpWithCommission, addToDict, OperationTypeWithCommission.BUY,
      OperationTypeWithCommission.SELL, DEFAULT_CURRENCY, Currency.RUB]
  have hm : MainPy.get_profit [buyOpWithCommission] [] (fun s => "I" ++ s)
      = Except.ok [("dividend", 0), ("coupon", 0), ("IBBG004730N88", -301)] := by
    simp only [MainPy.get_profit]
    rw [hft]
    norm_num [Except.map, MainPy.dividendEntry,
      MainPy.couponEntry, get_total_payment_by_filter, pyFilter,
      buyOpWithCommission, setToDict, containsKey, lookupD, addToDict,
      OperationTypeWithCommission.DIVIDEND, OperationTypeWithCommission.TAXDIVIDEND,
      OperationTypeWithCommission.COUPON, OperationTypeWithCommission.TAXCOUPON,
      OperationTypeWithCommission.BUY, DEFAULT_CURRENCY, Currency.RUB]
    decide
  refine ⟨hft, ?_⟩
  refine (get_profit_structure [buyOpWithCommission] [] (fun s => "I" ++ s)
      [("BBG004730N88", -301)]
      [("dividend", 0), ("coupon", 0), ("IBBG004730N88", -301)]
      hft hm ?_ ?_).1
  · intro f hf
    simp only [List.map_cons, List.map_nil, List.mem_singleton] at hf
    subst hf
    constructor <;> decide
  · intro a b ha hb _
    simp only [List.map_cons, List.map_nil, List.mem_singleton] at ha hb
    rw [ha, hb]

/-! ### Claim C5: portfolio current_total and the binary64 literal example -/

theorem int_log_eq_of_bounds (q : ℚ) (e : ℤ) (hq : 0 < q)
    (h1 : (2 : ℚ) ^ e ≤ q) (h2 : q < (2 : ℚ) ^ (e + 1)) : Int.log 2 q = e := by
  have hmono := zpow_right_strictMono₀ (show (1 : ℚ) < 2 by norm_num)
  rcases lt_trichotomy (Int.log 2 q) e with h | h | h
  · exfalso
    have hstep : ((2 : ℚ) : ℚ) ^ (Int.log 2 q + 1) ≤ (2 : ℚ) ^ e :=
      hmono.monotone (by omega)
    have hq2 : q < (2 : ℚ) ^ (Int.log 2 q + 1) := by
      have := Int.lt_zpow_succ_log_self (b := 2) (by norm_num) q
      simpa using this
    exact absurd (lt_of_lt_of_le hq2 (le_trans hstep h1)) (lt_irrefl q)
  · exact h
  · exfalso
    have hstep : ((2 : ℚ)) ^ (e + 1) ≤ (2 : ℚ) ^ (Int.log 2 q) :=
      hmono.monotone (by omega)
    have hq1 : (2 : ℚ) ^ (Int.log 2 q) ≤ q := by
      have := Int.zpow_log_le_self (b := 2) (by norm_num) hq
      simpa using this
    exact absurd (lt_of_lt_of_le h2 (le_trans hstep hq1)) (lt_irrefl q)

theorem fl_eq_of_pos (q : ℚ) (e : ℤ) (m : ℤ) (hq : 0 < q)
    (h1 : (2 : ℚ) ^ e ≤ q) (h2 : q < (2 : ℚ) ^ (e + 1))
    (hm : roundHalfEvenInt (q * (2 : ℚ) ^ ((52 : ℤ) - e)) = m) :
    fl q = (m : ℚ) * (2 : ℚ) ^ (e - 52) := by
  rw [fl, if_neg (ne_of_gt hq)]
  simp only [if_neg (not_lt.mpr hq.le), abs_of_pos hq,
    int_log_eq_of_bounds q e hq h1 h2, hm, one_mul]

theorem roundHEI_of_lt_half (q : ℚ) (n : ℤ) (h1 : (n : ℚ) ≤ q)
    (h2 : q < (n : ℚ) + 1 / 2) : roundHalfEvenInt q = n := by
  have hfl : ⌊q⌋ = n := by
    rw [Int.floor_eq_iff]
    constructor
    · exact h1
    · linarith
  rw [roundHalfEvenInt]
  simp only [hfl]
  rw [if_pos (by linarith)]

theorem roundHEI_of_gt_half (q : ℚ) (n : ℤ) (h1 : (n : ℚ) + 1 / 2 < q)
    (h2 : q < (n : ℚ) + 1) : roundHalfEvenInt q = n + 1 := by
  have hfl : ⌊q⌋ = n := by
    rw [Int.floor_eq_iff]
    constructor
    · linarith
    · linarith
  rw [roundHalfEvenInt]
  simp only [hfl]
  rw [if_neg (by intro hc; linarith), if_pos (by linarith)]

/-- C5: every record listed by get_portfolio_info carries
current_total = round(average price * balance + expected yield, 2), where
the products and sums are binary64 operations and round is Python round to
2 decimal places.  The literal example of the claim is checked in the
witness below: with avg_price 100.0, 5 lots and expected yield 12.345 the
result is 512.35, because the binary64 value of the sum is
512.345000000000027..., strictly above the tie, so rounding (which is half
to even, not half away from zero, but faces no tie here) goes up. -/
theorem portfolio_current_total (positions : List Position) (nameOf : String → String)
    (i : ℕ) (h : i < positions.length) :
    ((CommonPy.get_portfolio_info positions nameOf).get
        ⟨i, by simpa [CommonPy.get_portfolio_info] using h⟩).current_total
      = pyRound2 (fadd (fmul (positions.get ⟨i, h⟩).average_position_price.value
          (positions.get ⟨i, h⟩).balance) (positions.get ⟨i, h⟩).expected_yield.value) := by
  simp [CommonPy.get_portfolio_info]

theorem portfolio_current_total_witness :
    0 < ([examplePosition] : List Position).length
      ∧ ((CommonPy.get_portfolio_info [examplePosition] (fun s => s)).get
          ⟨0, by simp [CommonPy.get_portfolio_info]⟩).current_total = 10247 / 20 := by
  refine ⟨by decide, ?_⟩
  have h := portfolio_current_total [examplePosition] (fun s => s) 0 (by decide)
  rw [h]
  have hy : fl (12345 / 1000) = 6949617174986097 / 562949953421312 := by
    rw [fl_eq_of_pos (12345 / 1000) 3 6949617174986097 (by norm_num) (by norm_num)
      (by norm_num) (roundHEI_of_gt_half _ 6949617174986096 (by norm_num) (by norm_num))]
    norm_num
  have hmul : fmul 100 5 = 500 := by
    have h100 : (100 : ℚ) * 5 = 500 := by norm_num
    rw [fmul, h100, fl_eq_of_pos 500 8 8796093022208000 (by norm_num) (by norm_num)
      (by norm_num) (roundHEI_of_lt_half _ 8796093022208000 (by norm_num) (by norm_num))]
    norm_num
  have hadd : fadd 500 (6949617174986097 / 562949953421312)
      = 2253317139731579 / 4398046511104 := by
    have hsum : (500 : ℚ) + 6949617174986097 / 562949953421312
        = 288424593885642097 / 562949953421312 := by norm_num
    rw [fadd, hsum, fl_eq_of_pos _ 9 4506634279463158 (by norm_num) (by norm_num)
      (by norm_num) (roundHEI_of_gt_half _ 4506634279463157 (by norm_num) (by norm_num))]
    norm_num
  simp only [List.get, examplePosition]
  rw [hy, hmul, hadd, pyRound2,
    roundHEI_of_gt_half (2253317139731579 / 4398046511104 * 100) 51234
      (by norm_num) (by norm_num)]
  norm_num
